import Mathlib

/-!
Verification of the CRM query tools (HubSpot / Salesforce) against their
natural-language specification.  The definitions below are a shallow
embedding of the Python sources:

  * `hubspot_query_tool.py`  (CLI HubSpot tool)
  * `sfdc_query_tool.py`     (CLI Salesforce tool)
  * `pages/CRM_Tools.py`     (Streamlit web UI, classes `HubSpotClient`,
                              `SalesforceClient`, helper `make_excel`)

Credential blobs are modelled as association lists of string key/value
pairs; JSON-ish record values by the inductive `Val`; network effects
(OAuth token endpoints, paged search responses) by explicit oracle
parameters, so that the control-flow of the Python code becomes a pure
function of the oracle.
-/

namespace CRM

/-- A credential blob: a JSON object of string fields, modelled as an
association list (Python dicts have unique keys; `List.lookup` returns
the first match, which coincides on such lists). -/
abbrev Creds := List (String × String)

/-- Python truthiness of `d.get(k)` for a string-valued field:
present and non-empty. -/
def truthy : Option String → Bool
  | some s => s ≠ ""
  | none => false

/-- Python `k in d` (key presence, regardless of value). -/
def hasKey (creds : Creds) (k : String) : Bool :=
  creds.any (fun p => p.1 == k)

/-! ### HubSpot authentication (`HubSpotQueryTool.authenticate`,
`HubSpotClient._authenticate`) -/

/-- The two transports: `'bearer'` (Authorization header) or `'hapikey'`
(query parameter). -/
inductive AuthType where
  | bearer
  | hapikey
deriving DecidableEq, Repr

/-- The state set by `authenticate`: `self.token` and `self.auth_type`. -/
structure AuthState where
  token : String
  auth_type : AuthType
deriving DecidableEq, Repr

/-- `HubSpotQueryTool.authenticate` / `HubSpotClient._authenticate`.

`refreshedToken` is the oracle for what `_refresh_oauth_token` would
return (that call is only reached on the OAuth branch).  Mirrors the
Python control flow:

1. `credentials.get('hapikey')` truthy → hapikey transport, value verbatim;
2. `always_refresh` and all of `client_id`, `client_secret`,
   `refresh_token` present (key presence via `in`) → refreshed bearer;
3. first truthy of `access_token`, `token`, `api_key` → stored bearer;
4. otherwise `ValueError`. -/
def authenticate (creds : Creds) (alwaysRefresh : Bool) (refreshedToken : String) :
    Except String AuthState :=
  if truthy (List.lookup "hapikey" creds) then
    .ok ⟨(List.lookup "hapikey" creds).getD "", .hapikey⟩
  else if alwaysRefresh && hasKey creds "client_id" && hasKey creds "client_secret"
      && hasKey creds "refresh_token" then
    .ok ⟨refreshedToken, .bearer⟩
  else if truthy (List.lookup "access_token" creds) then
    .ok ⟨(List.lookup "access_token" creds).getD "", .bearer⟩
  else if truthy (List.lookup "token" creds) then
    .ok ⟨(List.lookup "token" creds).getD "", .bearer⟩
  else if truthy (List.lookup "api_key" creds) then
    .ok ⟨(List.lookup "api_key" creds).getD "", .bearer⟩
  else
    .error "No token found in credentials"

/-- Headers built by `HubSpotQueryTool._get` / `_post` (and
`HubSpotClient._headers`): always `Content-Type`, plus `Authorization`
only on the bearer transport. -/
def hs_request_headers (st : AuthState) : List (String × String) :=
  match st.auth_type with
  | .bearer => [("Content-Type", "application/json"),
                ("Authorization", "Bearer " ++ st.token)]
  | .hapikey => [("Content-Type", "application/json")]

/-- Query parameters built by `HubSpotQueryTool._get` / `_post` (and
`HubSpotClient._params`): the token as `hapikey` on the hapikey
transport, then any extra parameters. -/
def hs_request_params (st : AuthState) (extra : List (String × String)) :
    List (String × String) :=
  (match st.auth_type with
   | .bearer => []
   | .hapikey => [("hapikey", st.token)]) ++ extra

/-! ### Salesforce token acquisition
(`SalesforceQueryTool.get_salesforce_access_token`,
`SalesforceClient._get_token`) -/

/-- The three OAuth grant types the tool can attempt, in source order. -/
inductive Grant where
  | refresh
  | password
  | clientCredentials
deriving DecidableEq, Repr

/-- One POST to the token endpoint: which grant it used and, for the
password grant, the exact `password` form field sent (the stored password
with the security token appended when present). -/
structure TokenAttempt where
  grant : Grant
  sentPassword : Option String
deriving DecidableEq, Repr

/-- Network oracle for the token endpoint: what each grant's POST would
yield (`some token` on 2xx, `none` when the request raises). -/
structure SfNet where
  refreshOutcome : Option String
  passwordOutcome : Option String
  clientCredOutcome : Option String

/-- The `password` form field of the password grant:
`credentials['password'] + credentials['security_token']` when a
security token is stored, else the bare password. -/
def sf_password_sent (creds : Creds) : String :=
  (List.lookup "password" creds).getD "" ++
    (if hasKey creds "security_token" then
      (List.lookup "security_token" creds).getD "" else "")

/-- Final client-credentials attempt: its failure is the one that
propagates (`raise` in the last `except`). -/
def sf_clientCred_step (net : SfNet) (tr : List TokenAttempt) :
    Except String String × List TokenAttempt :=
  match net.clientCredOutcome with
  | some t => (.ok t, tr ++ [⟨.clientCredentials, none⟩])
  | none => (.error "Error getting access token", tr ++ [⟨.clientCredentials, none⟩])

/-- Password-grant attempt, made only when both `username` and `password`
are stored; its failure is swallowed and falls through to the
client-credentials attempt. -/
def sf_password_step (creds : Creds) (net : SfNet) (tr : List TokenAttempt) :
    Except String String × List TokenAttempt :=
  if hasKey creds "username" && hasKey creds "password" then
    match net.passwordOutcome with
    | some t => (.ok t, tr ++ [⟨.password, some (sf_password_sent creds)⟩])
    | none => sf_clientCred_step net (tr ++ [⟨.password, some (sf_password_sent creds)⟩])
  else sf_clientCred_step net tr

/-- Refresh-token attempt, made only when `refresh_token` is stored; its
failure is swallowed and falls through to the password attempt. -/
def sf_refresh_step (creds : Creds) (net : SfNet) (tr : List TokenAttempt) :
    Except String String × List TokenAttempt :=
  if hasKey creds "refresh_token" then
    match net.refreshOutcome with
    | some t => (.ok t, tr ++ [⟨.refresh, none⟩])
    | none => sf_password_step creds net (tr ++ [⟨.refresh, none⟩])
  else sf_password_step creds net tr

/-- `SalesforceQueryTool.get_salesforce_access_token` /
`SalesforceClient._get_token`: with a stored `access_token` and no forced
refresh the stored value is returned with no token-endpoint call (empty
attempt trace); otherwise the three grants are attempted in order.
The model assumes `client_id` / `client_secret` are present (they are
read unconditionally by every grant's payload). -/
def get_salesforce_access_token (creds : Creds) (force : Bool) (net : SfNet) :
    Except String String × List TokenAttempt :=
  if hasKey creds "access_token" && !force then
    (.ok ((List.lookup "access_token" creds).getD ""), [])
  else
    sf_refresh_step creds net []

/-! ### HubSpot pagination (`HubSpotQueryTool.fetch_all_records`,
`HubSpotClient.fetch_all`) -/

/-- One page of a search response: the `results` batch and the
`paging.next.after` cursor (absent when the envelope has none). -/
structure Page (α : Type) where
  results : List α
  nextAfter : Option String

/-- One search request issued by the pagination loop: the page size sent
as `limit` and the `after` cursor included in the payload (the payload
carries `after` only when the cursor is truthy). -/
structure FetchRequest where
  limit : Nat
  after : Option String
deriving DecidableEq, Repr

/-- The loop body of `fetch_all_records` / `fetch_all`.  `pages` is the
oracle of successive server responses (consumed one per request); running
out of pages models a request with no response.  Mirrors the Python:
`while len(records) < limit`, `batch_size = min(100, limit -
len(records))`, `payload['after'] = after` only when `after` is truthy,
`records.extend(batch)`, then `if not after or not batch: break`. -/
def fetch_all_go {α : Type} : List (Page α) → Nat → List α → Option String →
    List FetchRequest → Except String (List α × List FetchRequest)
  | [], limit, records, _, reqs =>
    if records.length < limit then .error "no response to request"
    else .ok (records, reqs)
  | p :: rest, limit, records, after, reqs =>
    if records.length < limit then
      let req : FetchRequest :=
        ⟨min 100 (limit - records.length), if truthy after then after else none⟩
      if !(truthy p.nextAfter) || p.results.isEmpty then
        .ok (records ++ p.results, reqs ++ [req])
      else
        fetch_all_go rest limit (records ++ p.results) p.nextAfter (reqs ++ [req])
    else
      .ok (records, reqs)

/-- `fetch_all_records(object_type, props, limit)`: run the pagination
loop from the empty accumulator with no cursor, returning the records
together with the trace of issued requests. -/
def fetch_all {α : Type} (pages : List (Page α)) (limit : Nat) :
    Except String (List α × List FetchRequest) :=
  fetch_all_go pages limit [] none []

/-- Checks that every batch the loop would consume contains at most the
page size requested for it (the well-behaved-server condition: HubSpot
never returns more rows than `limit` asks for). -/
def batchesFit {α : Type} : List (Page α) → Nat → Nat → Bool
  | [], _, _ => true
  | p :: rest, limit, acc =>
    if acc < limit then
      decide (p.results.length ≤ min 100 (limit - acc)) &&
        (if !(truthy p.nextAfter) || p.results.isEmpty then true
         else batchesFit rest limit (acc + p.results.length))
    else true

/-- Modelled from the spec: the request trace the pagination contract
prescribes for a sequence of consumed pages — each request sized
`min(100, limit - records accumulated so far)` and carrying the prior
response's cursor (`none` for the first request).  This is the spec-side
definition that `fetch_all_go` is proved to refine. -/
def spec_requests {α : Type} (L : Nat) :
    Nat → Option String → List (Page α) → List FetchRequest
  | _, _, [] => []
  | acc, prev, p :: rest =>
    ⟨min 100 (L - acc), prev⟩ ::
      spec_requests L (acc + p.results.length) p.nextAfter rest

/-! ### Record counting (`HubSpotQueryTool.count_records`,
`SalesforceQueryTool.count_records`, `HubSpotClient.count`,
`SalesforceClient.count`) -/

/-- A HubSpot search response envelope as read by `count_records`: the
optional `total` field of the JSON body. -/
structure HsCountResponse where
  total : Option Nat

/-- A Salesforce query response envelope as read by `count_records`: the
optional `totalSize` field of the JSON body. -/
structure SfCountResponse where
  totalSize : Option Nat

/-- `HubSpotQueryTool.count_records` / `HubSpotClient.count`: the
argument is the outcome of the HTTP count request (`error` for timeout,
connection failure or a non-2xx status raised by `raise_for_status`).
Any exception yields the sentinel `-1`; a success yields
`json.get('total', 0)`.  Total as a Lean function: it never raises. -/
def hs_count_records (resp : Except String HsCountResponse) : Int :=
  match resp with
  | .ok r => (r.total.getD 0 : Nat)
  | .error _ => -1

/-- `SalesforceQueryTool.count_records` / `SalesforceClient.count`: as
`hs_count_records`, but reading `totalSize` from the SOQL
`SELECT COUNT()` response. -/
def sf_count_records (resp : Except String SfCountResponse) : Int :=
  match resp with
  | .ok r => (r.totalSize.getD 0 : Nat)
  | .error _ => -1

/-! ### Record flattening (`HubSpotQueryTool.flatten_record`,
`HubSpotClient.flatten`; Salesforce `attributes` stripping in
`SalesforceQueryTool.save_to_excel` and the web UI) -/

/-- A JSON-ish value: a scalar rendered as a string, or a nested
mapping. -/
inductive Val where
  | s : String → Val
  | dict : List (String × Val) → Val

/-- A flat row: a JSON object, modelled as an association list. -/
abbrev Row := List (String × Val)

/-- Python `d[k] = v` on a dict modelled as an association list: replace
the value in place when the key exists, append otherwise. -/
def dictInsert (d : Row) (k : String) (v : Val) : Row :=
  if d.any (fun p => p.1 == k) then
    d.map (fun p => bif p.1 == k then (k, v) else p)
  else
    d ++ [(k, v)]

/-- Python `d.update(e)`: insert every entry of `e` into `d` in order. -/
def dictUpdate (d : Row) (e : Row) : Row :=
  e.foldl (fun acc p => dictInsert acc p.1 p.2) d

/-- A HubSpot record as consumed by `flatten_record`: optional top-level
`id` and the `properties` mapping. -/
structure HSRecord where
  id : Option Val
  properties : Row

/-- `HubSpotQueryTool.flatten_record` / `HubSpotClient.flatten`:
`flat = {'id': record.get('id', '')}; flat.update(record.get('properties', {}))`. -/
def flatten_record (r : HSRecord) : Row :=
  dictUpdate [("id", r.id.getD (.s ""))] r.properties

/-- Salesforce record flattening: drop exactly the `attributes` key
(`{k: v for k, v in r.items() if k != 'attributes'}` in the web UI; the
CLI exporter equivalently skips `attributes` when collecting fields). -/
def sf_flatten (r : Row) : Row :=
  r.filter (fun p => p.1 ≠ "attributes")

/-! ### Spreadsheet export (`HubSpotQueryTool.save_to_excel`, web-UI
`make_excel`) -/

mutual

/-- Python `str(...)` rendering of a value, used when a nested mapping is
written to a cell. -/
def pyStr : Val → String
  | .s v => v
  | .dict d => "\x7b" ++ pyStrEntries d ++ "\x7d"

/-- Renders the entries of a nested mapping for `pyStr`. -/
def pyStrEntries : List (String × Val) → String
  | [] => ""
  | [(k, v)] => k ++ ": " ++ pyStr v
  | (k, v) :: rest => k ++ ": " ++ pyStr v ++ ", " ++ pyStrEntries rest

end

/-- The cell written for `field` of a flat `row`:
`value = record.get(field, ''); if isinstance(value, dict): value =
str(value)` — identical in `save_to_excel` and `make_excel`. -/
def cellValue (row : Row) (field : String) : Val :=
  match List.lookup field row with
  | some (.dict d) => .s (pyStr (.dict d))
  | some v => v
  | none => .s ""

/-- First-occurrence de-duplication of a key list, as
`list(dict.fromkeys(...))` computes it in `make_excel`. -/
def dedupKeys : List String → List String
  | [] => []
  | k :: ks => k :: (dedupKeys ks).filter (fun x => x ≠ k)

/-- Python `sorted` on strings (modelled by Mathlib's insertion sort over
the linear order on `String`). -/
def sortStrings (l : List String) : List String :=
  List.insertionSort (· ≤ ·) l

/-- The key list of one row (`r.keys()`). -/
def rowKeys (r : Row) : List String :=
  r.map Prod.fst

/-- `HubSpotQueryTool.save_to_excel` column list over the flattened
records: `['id'] + sorted(f for f in all_fields if f != 'id')`, where
`all_fields` is the set of keys of all rows. -/
def hs_all_fields (flat : List Row) : List String :=
  "id" :: sortStrings (dedupKeys (((flat.map rowKeys).flatten).filter
    (fun f => f ≠ "id")))

/-- `make_excel` column list:
`list(dict.fromkeys(k for r in records for k in r.keys()))`. -/
def make_excel_fields (rows : List Row) : List String :=
  dedupKeys ((rows.map rowKeys).flatten)

/-- A produced worksheet: the header row and the grid of data cells. -/
structure Sheet where
  header : List String
  cells : List (List Val)

/-- `HubSpotQueryTool.save_to_excel`: returns `None` without writing when
there are no records; otherwise flattens every record, writes the column
list as the header row, and one data row per record with `cellValue` in
each column. -/
def hs_save_to_excel (records : List HSRecord) : Option Sheet :=
  if records.isEmpty then none
  else
    some ⟨hs_all_fields (records.map flatten_record),
      (records.map flatten_record).map
        (fun r => (hs_all_fields (records.map flatten_record)).map (cellValue r))⟩

/-- Web-UI `make_excel`: an empty workbook for no rows; otherwise the
deduplicated key union as the header row and one data row per record. -/
def make_excel (rows : List Row) : Sheet :=
  if rows.isEmpty then ⟨[], []⟩
  else ⟨make_excel_fields rows,
    rows.map (fun r => (make_excel_fields rows).map (cellValue r))⟩

/-! ### Salesforce query retry (`SalesforceQueryTool.run_query`,
lines 515–548) -/

/-- Error raised by a query call: an HTTPError carrying its response
status, or any other exception (only `requests.exceptions.HTTPError` is
caught by the retry branch). -/
inductive QueryError where
  | http (status : Nat)
  | other (msg : String)
deriving DecidableEq, Repr

/-- Oracle for the retry flow: outcome of the initial query, of the
secret re-fetch, the token-endpoint network, and the retried query. -/
structure RetryEnv where
  firstResult : Except QueryError (List Row)
  refetchedCreds : Except String Creds
  net : SfNet
  retryResult : Except QueryError (List Row)

/-- What the retry branch did: whether the secret was re-fetched, whether
a token resolution was forced, and how many times the query was
retried. -/
structure RetryTrace where
  refetchedSecret : Bool
  forcedToken : Bool
  retries : Nat
deriving DecidableEq, Repr

/-- Errors surfacing from `run_query`'s query-and-retry section. -/
inductive RunError where
  | query (e : QueryError)
  | refresh (msg : String)
deriving DecidableEq, Repr

/-- The `try/except requests.exceptions.HTTPError` block of
`SalesforceQueryTool.run_query`: on a 401 with auto-refresh enabled,
re-fetch the secret (forced), force a fresh OAuth token resolution
(`force_refresh=True`), check `instance_url` in the refreshed blob, and
retry the same query exactly once, any failure of that recovery or of the
retry propagating; on any other status, or with auto-refresh disabled, or
for a non-HTTPError, the original error propagates with no retry. -/
def run_query_with_retry (autoRefresh : Bool) (env : RetryEnv) :
    Except RunError (List Row) × RetryTrace :=
  match env.firstResult with
  | .ok r => (.ok r, ⟨false, false, 0⟩)
  | .error (.http status) =>
    if status == 401 && autoRefresh then
      match env.refetchedCreds with
      | .error msg => (.error (.refresh msg), ⟨true, false, 0⟩)
      | .ok creds =>
        match (get_salesforce_access_token creds true env.net).1 with
        | .error msg => (.error (.refresh msg), ⟨true, true, 0⟩)
        | .ok _tok =>
          if truthy (List.lookup "instance_url" creds) then
            (env.retryResult.mapError .query, ⟨true, true, 1⟩)
          else
            (.error (.refresh "instance_url not found in refreshed credentials"),
             ⟨true, true, 0⟩)
    else
      (.error (.query (.http status)), ⟨false, false, 0⟩)
  | .error (.other msg) => (.error (.query (.other msg)), ⟨false, false, 0⟩)

/-! ### Outbound request timeouts (`REQUEST_TIMEOUT` in the web UI; no
`timeout=` argument anywhere in either CLI tool) -/

/-- The three source variants. -/
inductive Variant where
  | hubspotCli
  | sfdcCli
  | webUi
deriving DecidableEq, Repr

/-- One outbound `requests.*` call site: its variant, an identifying
name, and the `timeout=` argument it passes (in seconds; `none` when the
call passes no timeout, so the library waits indefinitely). -/
structure RequestSite where
  variant : Variant
  name : String
  timeout : Option Nat
deriving DecidableEq, Repr

/-- Every outbound HTTP call site of the three sources, transcribed with
the timeout it passes: `timeout=REQUEST_TIMEOUT` (10 seconds) at every
web-UI site, and no timeout at any CLI site. -/
def requestSites : List RequestSite := [
  ⟨.hubspotCli, "_refresh_oauth_token", none⟩,
  ⟨.hubspotCli, "_get", none⟩,
  ⟨.hubspotCli, "_post", none⟩,
  ⟨.sfdcCli, "get_salesforce_objects", none⟩,
  ⟨.sfdcCli, "describe_sobject", none⟩,
  ⟨.sfdcCli, "token endpoint, refresh_token grant", none⟩,
  ⟨.sfdcCli, "token endpoint, password grant", none⟩,
  ⟨.sfdcCli, "token endpoint, client_credentials grant", none⟩,
  ⟨.sfdcCli, "query_salesforce", none⟩,
  ⟨.webUi, "HubSpotClient._refresh_oauth", some 10⟩,
  ⟨.webUi, "HubSpotClient._get", some 10⟩,
  ⟨.webUi, "HubSpotClient._post", some 10⟩,
  ⟨.webUi, "SalesforceClient token endpoint, refresh_token grant", some 10⟩,
  ⟨.webUi, "SalesforceClient token endpoint, password grant", some 10⟩,
  ⟨.webUi, "SalesforceClient token endpoint, client_credentials grant", some 10⟩,
  ⟨.webUi, "SalesforceClient.query", some 10⟩,
  ⟨.webUi, "SalesforceClient.get_objects", some 10⟩,
  ⟨.webUi, "SalesforceClient.describe", some 10⟩]

end CRM

/-- **C1.**  A credential blob whose `hapikey` field is non-empty always
authenticates with that value verbatim on the hapikey (query-param)
transport, whatever other OAuth or stored-token fields it carries and
whatever the always-refresh flag is; requests built from that state send
the token as a `hapikey` query parameter and carry no `Authorization`
header. -/
theorem C1_hapikey_priority (creds : CRM.Creds) (alwaysRefresh : Bool)
    (refreshedToken : String) (v : String)
    (hv : List.lookup "hapikey" creds = some v) (hne : v ≠ "") :
    CRM.authenticate creds alwaysRefresh refreshedToken =
      .ok ⟨v, CRM.AuthType.hapikey⟩ ∧
    CRM.hs_request_params ⟨v, CRM.AuthType.hapikey⟩ [] = [("hapikey", v)] ∧
    ¬ ("Authorization" ∈
        (CRM.hs_request_headers ⟨v, CRM.AuthType.hapikey⟩).map Prod.fst) := by
  refine ⟨?_, rfl, by simp [CRM.hs_request_headers]⟩
  unfold CRM.authenticate
  rw [hv]
  simp [CRM.truthy, hne]

/-- Witness for C1: a blob that also carries every OAuth and stored-token
field still resolves to the hapikey. -/
theorem C1_hapikey_priority_witness :
    List.lookup "hapikey"
        [("client_id", "ci"), ("client_secret", "cs"), ("refresh_token", "rt"),
         ("access_token", "at"), ("token", "tk"), ("api_key", "ak"),
         ("hapikey", "HK")] = some "HK" ∧
    ("HK" : String) ≠ "" ∧
    (CRM.authenticate
        [("client_id", "ci"), ("client_secret", "cs"), ("refresh_token", "rt"),
         ("access_token", "at"), ("token", "tk"), ("api_key", "ak"),
         ("hapikey", "HK")] true "fresh" =
      .ok ⟨"HK", CRM.AuthType.hapikey⟩ ∧
     CRM.hs_request_params ⟨"HK", CRM.AuthType.hapikey⟩ [] = [("hapikey", "HK")] ∧
     ¬ ("Authorization" ∈
        (CRM.hs_request_headers ⟨"HK", CRM.AuthType.hapikey⟩).map Prod.fst)) :=
  ⟨by decide, by decide,
   C1_hapikey_priority _ true "fresh" "HK" (by decide) (by decide)⟩

/-- If a key looks up to a value, the blob has that key. -/
theorem hasKey_of_lookup {creds : CRM.Creds} {k v : String}
    (h : List.lookup k creds = some v) : CRM.hasKey creds k = true := by
  induction creds with
  | nil => simp [List.lookup] at h
  | cons p rest ih =>
    obtain ⟨a, b⟩ := p
    simp only [List.lookup] at h
    cases hk : (k == a) with
    | true =>
      have hak : (a == k) = true := by
        rw [beq_iff_eq] at hk ⊢
        exact hk.symm
      simp [CRM.hasKey, List.any_cons, hak]
    | false =>
      rw [hk] at h
      have := ih h
      simp only [CRM.hasKey, List.any_cons] at this ⊢
      simp [this]

/-- **C2.**  For a Salesforce credential blob carrying the OAuth client
fields, a refresh token and a username/password pair: whenever token
resolution is triggered — forced, or no stored `access_token` key exists
— the refresh-token grant, the username+password(+security-token suffix)
grant and the client-credentials grant are attempted in that order, each
failure swallowed and falling through to the next, and only the final
attempt's failure propagates; when not forced and a stored `access_token`
exists, its value is returned directly with an empty attempt trace (no
network call). -/
theorem C2_sf_token_resolution (creds : CRM.Creds) (net : CRM.SfNet)
    (_hci : CRM.hasKey creds "client_id" = true)
    (_hcs : CRM.hasKey creds "client_secret" = true)
    (hrt : CRM.hasKey creds "refresh_token" = true)
    (hun : CRM.hasKey creds "username" = true)
    (hpw : CRM.hasKey creds "password" = true) :
    (∀ v, List.lookup "access_token" creds = some v →
      CRM.get_salesforce_access_token creds false net = (.ok v, [])) ∧
    (∀ force : Bool, force = true ∨ CRM.hasKey creds "access_token" = false →
      (∀ t, net.refreshOutcome = some t →
        CRM.get_salesforce_access_token creds force net =
          (.ok t, [⟨.refresh, none⟩])) ∧
      (∀ t, net.refreshOutcome = none → net.passwordOutcome = some t →
        CRM.get_salesforce_access_token creds force net =
          (.ok t, [⟨.refresh, none⟩,
                   ⟨.password, some (CRM.sf_password_sent creds)⟩])) ∧
      (∀ t, net.refreshOutcome = none → net.passwordOutcome = none →
          net.clientCredOutcome = some t →
        CRM.get_salesforce_access_token creds force net =
          (.ok t, [⟨.refresh, none⟩,
                   ⟨.password, some (CRM.sf_password_sent creds)⟩,
                   ⟨.clientCredentials, none⟩])) ∧
      (net.refreshOutcome = none → net.passwordOutcome = none →
          net.clientCredOutcome = none →
        CRM.get_salesforce_access_token creds force net =
          (.error "Error getting access token",
           [⟨.refresh, none⟩,
            ⟨.password, some (CRM.sf_password_sent creds)⟩,
            ⟨.clientCredentials, none⟩]))) := by
  refine ⟨?_, ?_⟩
  · intro v hv
    have hk := hasKey_of_lookup hv
    simp [CRM.get_salesforce_access_token, hk, hv]
  · intro force htrig
    have hcond : (CRM.hasKey creds "access_token" && !force) = false := by
      rcases htrig with h | h
      · rw [h]
        simp
      · rw [h]
        simp
    refine ⟨?_, ?_, ?_, ?_⟩
    · intro t ht
      simp [CRM.get_salesforce_access_token, hcond, CRM.sf_refresh_step,
        hrt, ht]
    · intro t hr hp
      simp [CRM.get_salesforce_access_token, hcond, CRM.sf_refresh_step,
        CRM.sf_password_step, hrt, hun, hpw, hr, hp]
    · intro t hr hp hc
      simp [CRM.get_salesforce_access_token, hcond, CRM.sf_refresh_step,
        CRM.sf_password_step, CRM.sf_clientCred_step, hrt, hun, hpw,
        hr, hp, hc]
    · intro hr hp hc
      simp [CRM.get_salesforce_access_token, hcond, CRM.sf_refresh_step,
        CRM.sf_password_step, CRM.sf_clientCred_step, hrt, hun, hpw,
        hr, hp, hc]

/-- Witness for C2 at a concrete blob with no stored `access_token`
(exercising the not-forced trigger of the cascade), on a network where
only the client-credentials grant succeeds. -/
theorem C2_sf_token_resolution_witness :
    CRM.hasKey [("client_id", "ci"), ("client_secret", "cs"),
        ("refresh_token", "rt"), ("username", "u"), ("password", "p"),
        ("security_token", "st")] "client_id" = true ∧
    CRM.hasKey [("client_id", "ci"), ("client_secret", "cs"),
        ("refresh_token", "rt"), ("username", "u"), ("password", "p"),
        ("security_token", "st")] "client_secret" = true ∧
    CRM.hasKey [("client_id", "ci"), ("client_secret", "cs"),
        ("refresh_token", "rt"), ("username", "u"), ("password", "p"),
        ("security_token", "st")] "refresh_token" = true ∧
    CRM.hasKey [("client_id", "ci"), ("client_secret", "cs"),
        ("refresh_token", "rt"), ("username", "u"), ("password", "p"),
        ("security_token", "st")] "username" = true ∧
    CRM.hasKey [("client_id", "ci"), ("client_secret", "cs"),
        ("refresh_token", "rt"), ("username", "u"), ("password", "p"),
        ("security_token", "st")] "password" = true ∧
    ((false = true) ∨ CRM.hasKey [("client_id", "ci"), ("client_secret", "cs"),
        ("refresh_token", "rt"), ("username", "u"), ("password", "p"),
        ("security_token", "st")] "access_token" = false) ∧
    CRM.get_salesforce_access_token
        [("client_id", "ci"), ("client_secret", "cs"),
         ("refresh_token", "rt"), ("username", "u"), ("password", "p"),
         ("security_token", "st")] false ⟨none, none, some "CC"⟩ =
      (.ok "CC",
       [⟨.refresh, none⟩,
        ⟨.password, some (CRM.sf_password_sent
           [("client_id", "ci"), ("client_secret", "cs"),
            ("refresh_token", "rt"), ("username", "u"), ("password", "p"),
            ("security_token", "st")])⟩,
        ⟨.clientCredentials, none⟩]) := by
  refine ⟨by decide, by decide, by decide, by decide, by decide,
    Or.inr (by decide), ?_⟩
  exact ((C2_sf_token_resolution
      [("client_id", "ci"), ("client_secret", "cs"),
       ("refresh_token", "rt"), ("username", "u"), ("password", "p"),
       ("security_token", "st")] ⟨none, none, some "CC"⟩ (by decide)
      (by decide) (by decide) (by decide) (by decide)).2 false
      (Or.inr (by decide))).2.2.1 "CC" rfl rfl rfl

/-- The spec-side request trace has one request per consumed page. -/
theorem length_spec_requests {α : Type} (L acc : Nat) (prev : Option String)
    (l : List (CRM.Page α)) :
    (CRM.spec_requests L acc prev l).length = l.length := by
  induction l generalizing acc prev with
  | nil => rfl
  | cons p rest ih => simp [CRM.spec_requests, ih]

/-- Master invariant of the pagination loop: a successful run consumes a
prefix of the page oracle, issues exactly the spec-side request trace for
that prefix, accumulates exactly its batches, starts only below the
limit, stops only when a stop condition holds, and never continues past
one. -/
theorem fetch_all_go_spec {α : Type} (pages : List (CRM.Page α)) (L : Nat)
    (records : List α) (after : Option String) (reqs : List CRM.FetchRequest)
    (recs : List α) (reqs' : List CRM.FetchRequest)
    (hok : CRM.fetch_all_go pages L records after reqs = .ok (recs, reqs'))
    (hafter : after = none ∨ CRM.truthy after = true) :
    ∃ n, n ≤ pages.length ∧
      reqs' = reqs ++ CRM.spec_requests L records.length after (pages.take n) ∧
      recs = records ++ ((pages.take n).map CRM.Page.results).flatten ∧
      (0 < n → records.length < L) ∧
      (L ≤ recs.length ∨ ∃ p, (pages.take n).getLast? = some p ∧
        (CRM.truthy p.nextAfter = false ∨ p.results = [])) ∧
      (∀ i, i + 1 < n →
        (records ++
          ((pages.take (i + 1)).map CRM.Page.results).flatten).length < L ∧
        ∃ q, pages[i]? = some q ∧ CRM.truthy q.nextAfter = true ∧
          q.results ≠ []) := by
  induction pages generalizing records after reqs with
  | nil =>
    simp only [CRM.fetch_all_go] at hok
    by_cases hc : records.length < L
    · rw [if_pos hc] at hok
      exact absurd hok (by simp)
    · rw [if_neg hc] at hok
      cases hok
      refine ⟨0, Nat.zero_le _, by simp [CRM.spec_requests], by simp,
        by omega, Or.inl (by omega), ?_⟩
      intro i hi
      exact absurd hi (by omega)
  | cons p rest ih =>
    simp only [CRM.fetch_all_go] at hok
    by_cases hc : records.length < L
    · rw [if_pos hc] at hok
      have hreq : (if CRM.truthy after then after else none) = after := by
        rcases hafter with h | h
        · simp [h, CRM.truthy]
        · simp [h]
      rw [hreq] at hok
      by_cases hbrk : (!(CRM.truthy p.nextAfter) || p.results.isEmpty) = true
      · rw [if_pos hbrk] at hok
        cases hok
        have hbrk' : CRM.truthy p.nextAfter = false ∨ p.results = [] := by
          cases hval : CRM.truthy p.nextAfter
          · exact Or.inl rfl
          · right
            have hie : p.results.isEmpty = true := by
              simpa [hval] using hbrk
            simpa using hie
        refine ⟨1, Nat.succ_le_succ (Nat.zero_le _), rfl, ?_,
          fun _ => hc, Or.inr ⟨p, rfl, hbrk'⟩, ?_⟩
        · show records ++ p.results = records ++ (p.results ++ [])
          rw [List.append_nil]
        · intro i hi
          exact absurd hi (by omega)
      · rw [if_neg hbrk] at hok
        have hcont : CRM.truthy p.nextAfter = true ∧ p.results ≠ [] := by
          constructor
          · cases hval : CRM.truthy p.nextAfter
            · exact absurd (by simp [hval]) hbrk
            · rfl
          · intro hx
            exact hbrk (by simp [hx])
        obtain ⟨n', hn', hreqs', hrecs', hstart', hterm', hprog'⟩ :=
          ih (records ++ p.results) p.nextAfter
            (reqs ++ [⟨min 100 (L - records.length), after⟩]) hok
            (Or.inr hcont.1)
        refine ⟨n' + 1, Nat.succ_le_succ hn', ?_, ?_, fun _ => hc, ?_, ?_⟩
        · rw [hreqs']
          simp [CRM.spec_requests, List.take_succ_cons, List.length_append,
            List.append_assoc]
        · rw [hrecs']
          simp [List.take_succ_cons, List.append_assoc]
        · rcases hterm' with h | ⟨q, hq, hqcond⟩
          · exact Or.inl h
          · right
            refine ⟨q, ?_, hqcond⟩
            rw [List.take_succ_cons]
            cases hrt2 : rest.take n' with
            | nil =>
              rw [hrt2] at hq
              simp at hq
            | cons x xs =>
              rw [hrt2] at hq
              rw [List.getLast?_cons_cons]
              exact hq
        · intro i hi
          cases i with
          | zero =>
            refine ⟨?_, ⟨p, by simp, hcont.1, hcont.2⟩⟩
            have h0 : 0 < n' := by omega
            have hlt := hstart' h0
            simp only [List.take_succ_cons, List.take_zero, List.map_cons,
              List.map_nil, List.flatten_cons, List.flatten_nil,
              List.append_nil, List.length_append] at hlt ⊢
            omega
          | succ j =>
            have hj : j + 1 < n' := by omega
            obtain ⟨hlen, q, hq, hqt, hqe⟩ := hprog' j hj
            refine ⟨?_, ⟨q, by simpa using hq, hqt, hqe⟩⟩
            simp only [List.take_succ_cons, List.map_cons, List.flatten_cons,
              List.length_append] at hlen ⊢
            omega
    · rw [if_neg hc] at hok
      cases hok
      refine ⟨0, Nat.zero_le _, by simp [CRM.spec_requests], by simp,
        by omega, Or.inl (by omega), ?_⟩
      intro i hi
      exact absurd hi (by omega)

/-- **C3.**  Universal pagination contract of `fetch_all`: every
successful run issues exactly the spec-side request trace over the
consumed page prefix — each request sized `min(100, limit minus records
accumulated so far)` and echoing the prior response's cursor — returns
exactly the concatenation of the consumed batches, terminates at the
first of: count reached the limit, no truthy next cursor, or an empty
batch (some stop condition holds at the end, and every earlier page
satisfied none of them), and issues no more requests than pages.  In
particular, three mock pages of `k ≥ 1` records each, of which only the
first two carry a cursor, yield exactly `3k` records in exactly three
requests and no fourth request. -/
theorem C3_pagination {α : Type} :
    (∀ (pages : List (CRM.Page α)) (L : Nat) (recs : List α)
        (reqs : List CRM.FetchRequest),
      CRM.fetch_all pages L = .ok (recs, reqs) →
      reqs.length ≤ pages.length ∧
      recs = ((pages.take reqs.length).map CRM.Page.results).flatten ∧
      reqs = CRM.spec_requests L 0 none (pages.take reqs.length) ∧
      (L ≤ recs.length ∨ ∃ p, (pages.take reqs.length).getLast? = some p ∧
        (CRM.truthy p.nextAfter = false ∨ p.results = [])) ∧
      (∀ i, i + 1 < reqs.length →
        (((pages.take (i + 1)).map CRM.Page.results).flatten).length < L ∧
        ∃ q, pages[i]? = some q ∧ CRM.truthy q.nextAfter = true ∧
          q.results ≠ [])) ∧
    (∀ (r1 r2 r3 : List α) (k : Nat), 1 ≤ k → r1.length = k →
      r2.length = k → r3.length = k →
      CRM.fetch_all [⟨r1, some "c1"⟩, ⟨r2, some "c2"⟩, ⟨r3, none⟩] (3 * k) =
        .ok (r1 ++ r2 ++ r3,
          [⟨min 100 (3 * k), none⟩, ⟨min 100 (2 * k), some "c1"⟩,
           ⟨min 100 k, some "c2"⟩])) := by
  constructor
  · intro pages L recs reqs hok
    obtain ⟨n, hn, hreqs, hrecs, _hstart, hterm, hprog⟩ :=
      fetch_all_go_spec pages L [] none [] recs reqs hok (Or.inl rfl)
    have hlen : reqs.length = n := by
      rw [hreqs]
      simp [length_spec_requests, List.length_take, Nat.min_eq_left hn]
    rw [hlen]
    refine ⟨hn, ?_, ?_, ?_, ?_⟩
    · simpa using hrecs
    · simpa using hreqs
    · simpa using hterm
    · intro i hi
      simpa using hprog i hi
  · intro r1 r2 r3 k hk h1 h2 h3
    have e1 : r1.isEmpty = false := by
      cases r1 with
      | nil => simp at h1; omega
      | cons a l => rfl
    have e2 : r2.isEmpty = false := by
      cases r2 with
      | nil => simp at h2; omega
      | cons a l => rfl
    have h0 : 0 < 3 * k := by omega
    have hA : k < 3 * k := by omega
    have hB : k + k < 3 * k := by omega
    have m1 : 3 * k - k = 2 * k := by omega
    have m2 : 3 * k - (k + k) = k := by omega
    simp [CRM.fetch_all, CRM.fetch_all_go, CRM.truthy, h0, h1, h2, hA, hB,
      e1, e2, m1, m2]

/-- Witness for C3 at `k = 1` with singleton pages, also exercising the
universal contract on that run. -/
theorem C3_pagination_witness :
    1 ≤ 1 ∧ ([10].length = 1) ∧ ([20].length = 1) ∧ ([30].length = 1) ∧
    CRM.fetch_all [⟨[10], some "c1"⟩, ⟨[20], some "c2"⟩, ⟨[30], none⟩] (3 * 1) =
      .ok ([10] ++ [20] ++ [30],
        [⟨min 100 (3 * 1), none⟩, ⟨min 100 (2 * 1), some "c1"⟩,
         ⟨min 100 1, some "c2"⟩]) ∧
    ([⟨min 100 (3 * 1), none⟩, ⟨min 100 (2 * 1), some "c1"⟩,
      ⟨min 100 1, some "c2"⟩] : List CRM.FetchRequest).length ≤
      ([⟨([10] : List Nat), some "c1"⟩, ⟨[20], some "c2"⟩,
        ⟨[30], none⟩] : List (CRM.Page Nat)).length := by
  have hok := (C3_pagination (α := Nat)).2 [10] [20] [30] 1 (by decide)
    rfl rfl rfl
  exact ⟨by decide, by decide, by decide, by decide, hok,
    ((C3_pagination (α := Nat)).1 _ _ _ _ hok).1⟩

/-- Invariant lemma for the pagination loop: if every consumed batch is
within its requested size and the accumulator is within the limit, the
final record list is within the limit. -/
theorem fetch_all_go_length_le {α : Type} (pages : List (CRM.Page α))
    (limit : Nat) (records : List α) (after : Option String)
    (reqs : List CRM.FetchRequest) (recs : List α)
    (reqs' : List CRM.FetchRequest)
    (hfit : CRM.batchesFit pages limit records.length = true)
    (hle : records.length ≤ limit)
    (hok : CRM.fetch_all_go pages limit records after reqs = .ok (recs, reqs')) :
    recs.length ≤ limit := by
  induction pages generalizing records after reqs with
  | nil =>
    simp only [CRM.fetch_all_go] at hok
    split at hok
    · exact absurd hok (by simp)
    · cases hok
      exact hle
  | cons p rest ih =>
    simp only [CRM.fetch_all_go] at hok
    by_cases hc : records.length < limit
    · rw [if_pos hc] at hok
      simp only [CRM.batchesFit, if_pos hc, Bool.and_eq_true,
        decide_eq_true_eq] at hfit
      obtain ⟨hlen, hrest⟩ := hfit
      have hb : p.results.length ≤ limit - records.length :=
        le_trans hlen (Nat.min_le_right _ _)
      have hlen' : (records ++ p.results).length ≤ limit := by
        rw [List.length_append]
        omega
      split at hok
      · cases hok
        exact hlen'
      · rename_i hcond
        rw [if_neg hcond] at hrest
        refine ih (records ++ p.results) p.nextAfter _ ?_ hlen' hok
        rw [List.length_append]
        exact hrest
    · rw [if_neg hc] at hok
      cases hok
      exact hle

/-- Counterexample to **C4** as stated: a single page whose batch holds
two records against `limit = 1` is appended whole, so `fetch_all`
returns 2 records — more than the limit, with no truncation. -/
theorem C4_counterexample :
    CRM.fetch_all (α := Nat) [⟨[7, 8], none⟩] 1 =
      .ok ([7, 8], [⟨1, none⟩]) ∧
    ¬ (([7, 8] : List Nat).length ≤ 1) := by
  exact ⟨rfl, by decide⟩

/-- **C4 (amended).**  Whenever every response batch contains at most the
page size requested for it, the record list returned by `fetch_all` has
length at most the limit (the loop stops requesting as soon as the count
reaches the limit); an overshooting batch, however, is appended
untruncated, so without that condition the result can exceed the
limit. -/
theorem C4_limit_bound {α : Type} (pages : List (CRM.Page α)) (limit : Nat)
    (recs : List α) (reqs : List CRM.FetchRequest)
    (hfit : CRM.batchesFit pages limit 0 = true)
    (hok : CRM.fetch_all pages limit = .ok (recs, reqs)) :
    recs.length ≤ limit :=
  fetch_all_go_length_le pages limit [] none [] recs reqs
    (by simpa using hfit) (by simp) hok

/-- Witness for the amended C4 at a concrete well-sized page sequence. -/
theorem C4_limit_bound_witness :
    CRM.batchesFit (α := Nat) [⟨[5], none⟩] 1 0 = true ∧
    CRM.fetch_all (α := Nat) [⟨[5], none⟩] 1 = .ok ([5], [⟨1, none⟩]) ∧
    ([5] : List Nat).length ≤ 1 :=
  ⟨by decide, rfl, C4_limit_bound [⟨[5], none⟩] 1 [5] [⟨1, none⟩] (by decide) rfl⟩

/-- **C5.**  A failed HTTP count request (timeout, connection failure, or
non-2xx status — anything that raises) yields the sentinel `-1` on both
the HubSpot and the Salesforce clients, and never an exception (the model
is a total function); a successful response yields the total read from
the response envelope (`total` / `totalSize`, defaulting to 0 when the
field is absent). -/
theorem C5_count_sentinel :
    (∀ e, CRM.hs_count_records (.error e) = -1) ∧
    (∀ t, CRM.hs_count_records (.ok ⟨some t⟩) = t) ∧
    (CRM.hs_count_records (.ok ⟨none⟩) = 0) ∧
    (∀ e, CRM.sf_count_records (.error e) = -1) ∧
    (∀ t, CRM.sf_count_records (.ok ⟨some t⟩) = t) ∧
    (CRM.sf_count_records (.ok ⟨none⟩) = 0) :=
  ⟨fun _ => rfl, fun _ => rfl, rfl, fun _ => rfl, fun _ => rfl, rfl⟩

/-- `d[k] = v` appends when the key is absent. -/
theorem dictInsert_not_mem {d : CRM.Row} {k : String} (v : CRM.Val)
    (h : k ∉ d.map Prod.fst) : CRM.dictInsert d k v = d ++ [(k, v)] := by
  unfold CRM.dictInsert
  rw [if_neg]
  simp only [List.any_eq_true, beq_iff_eq, not_exists, not_and]
  intro p hp
  intro hpk
  exact h (by simpa [hpk] using List.mem_map_of_mem Prod.fst hp)

/-- `List.lookup` distributes over append, preferring the left list. -/
theorem lookup_append (d l : CRM.Row) (k : String) :
    List.lookup k (d ++ l) =
      match List.lookup k d with
      | some v => some v
      | none => List.lookup k l := by
  induction d with
  | nil => simp [List.lookup]
  | cons p rest ih =>
    obtain ⟨a, b⟩ := p
    simp only [List.cons_append, List.lookup]
    cases h : (k == a) with
    | true => simp
    | false => simpa using ih

/-- A key absent from an association list looks up to `none`. -/
theorem lookup_eq_none_of_not_mem {d : CRM.Row} {k : String}
    (h : k ∉ d.map Prod.fst) : List.lookup k d = none := by
  induction d with
  | nil => rfl
  | cons p rest ih =>
    obtain ⟨a, b⟩ := p
    simp only [List.map_cons, List.mem_cons, not_or] at h
    simp only [List.lookup]
    cases hk : (k == a) with
    | true => exact absurd (beq_iff_eq.mp hk) h.1
    | false => exact ih h.2

/-- Replacing the value at key `k` in place: lookups at `k` see the new
value exactly when the key occurs. -/
theorem lookup_map_replace (d : CRM.Row) (k : String) (v : CRM.Val) :
    List.lookup k (d.map (fun p => bif p.1 == k then (k, v) else p)) =
      if d.any (fun p => p.1 == k) then some v else List.lookup k d := by
  induction d with
  | nil => simp [List.lookup]
  | cons p rest ih =>
    obtain ⟨a, b⟩ := p
    cases h : (a == k) with
    | true =>
      simp [List.lookup, h]
    | false =>
      have hk : (k == a) = false := by
        rw [beq_eq_false_iff_ne] at h ⊢
        exact fun e => h e.symm
      simp only [List.map_cons, h, cond_false, List.lookup, hk,
        List.any_cons, Bool.false_or]
      exact ih

/-- Looking up the freshly inserted key finds the new value. -/
theorem lookup_dictInsert_self (d : CRM.Row) (k : String) (v : CRM.Val) :
    List.lookup k (CRM.dictInsert d k v) = some v := by
  unfold CRM.dictInsert
  by_cases h : d.any (fun p => p.1 == k) = true
  · rw [if_pos h, lookup_map_replace, if_pos h]
  · rw [if_neg h, lookup_append]
    have hnm : k ∉ d.map Prod.fst := by
      intro hm
      apply h
      simp only [List.any_eq_true, beq_iff_eq]
      obtain ⟨p, hp, hpk⟩ := List.mem_map.mp hm
      exact ⟨p, hp, hpk⟩
    rw [lookup_eq_none_of_not_mem hnm]
    simp [List.lookup]

/-- Inserting at another key leaves a lookup unchanged. -/
theorem lookup_dictInsert_ne (d : CRM.Row) {k k' : String} (v : CRM.Val)
    (h : k' ≠ k) : List.lookup k' (CRM.dictInsert d k v) = List.lookup k' d := by
  unfold CRM.dictInsert
  by_cases hc : d.any (fun p => p.1 == k) = true
  · rw [if_pos hc]
    clear hc
    induction d with
    | nil => rfl
    | cons p rest ih =>
      obtain ⟨a, b⟩ := p
      cases ha : (a == k) with
      | true =>
        have h1 : (k' == k) = false := beq_eq_false_iff_ne.mpr h
        have h2 : (k' == a) = false := by
          rw [beq_eq_false_iff_ne]
          rw [beq_iff_eq] at ha
          exact fun e => h (e.trans ha)
        simp only [List.map_cons, ha, cond_true, List.lookup, h1, h2]
        exact ih
      | false =>
        simp only [List.map_cons, ha, cond_false, List.lookup]
        cases hk' : (k' == a) with
        | true => rfl
        | false => exact ih
  · rw [if_neg hc, lookup_append]
    have h1 : (k' == k) = false := beq_eq_false_iff_ne.mpr h
    cases hl : List.lookup k' d with
    | some v' => rfl
    | none => simp [List.lookup, h1]

/-- Updating with entries whose keys avoid `k` leaves a lookup at `k`
unchanged. -/
theorem lookup_dictUpdate_not_mem {e : CRM.Row} (d : CRM.Row) {k : String}
    (h : k ∉ e.map Prod.fst) :
    List.lookup k (CRM.dictUpdate d e) = List.lookup k d := by
  induction e generalizing d with
  | nil => rfl
  | cons p rest ih =>
    obtain ⟨a, b⟩ := p
    simp only [List.map_cons, List.mem_cons, not_or] at h
    unfold CRM.dictUpdate
    simp only [List.foldl_cons]
    have := ih (CRM.dictInsert d a b) h.2
    unfold CRM.dictUpdate at this
    rw [this]
    exact lookup_dictInsert_ne d b h.1

/-- Updating with a duplicate-free entry list makes each of its entries
win any later lookup. -/
theorem lookup_dictUpdate_mem {e : CRM.Row} (d : CRM.Row) {k : String}
    {v : CRM.Val} (hnd : (e.map Prod.fst).Nodup) (hm : (k, v) ∈ e) :
    List.lookup k (CRM.dictUpdate d e) = some v := by
  induction e generalizing d with
  | nil => exact absurd hm (by simp)
  | cons p rest ih =>
    obtain ⟨a, b⟩ := p
    simp only [List.map_cons, List.nodup_cons] at hnd
    rcases List.mem_cons.mp hm with heq | hmem
    · obtain ⟨h1, h2⟩ := Prod.mk.inj heq
      subst h1
      subst h2
      unfold CRM.dictUpdate
      simp only [List.foldl_cons]
      have hnm : k ∉ rest.map Prod.fst := hnd.1
      have := lookup_dictUpdate_not_mem (CRM.dictInsert d k v) hnm
      unfold CRM.dictUpdate at this
      rw [this]
      exact lookup_dictInsert_self d k v
    · unfold CRM.dictUpdate
      simp only [List.foldl_cons]
      have := ih (CRM.dictInsert d a b) hnd.2 hmem
      unfold CRM.dictUpdate at this
      exact this

/-- Updating with entries whose (duplicate-free) keys are all fresh is a
plain append. -/
theorem dictUpdate_disjoint {e : CRM.Row} (d : CRM.Row)
    (hnd : (e.map Prod.fst).Nodup)
    (hdisj : ∀ k ∈ e.map Prod.fst, k ∉ d.map Prod.fst) :
    CRM.dictUpdate d e = d ++ e := by
  induction e generalizing d with
  | nil => simp [CRM.dictUpdate]
  | cons p rest ih =>
    obtain ⟨a, b⟩ := p
    simp only [List.map_cons, List.nodup_cons] at hnd
    unfold CRM.dictUpdate
    simp only [List.foldl_cons]
    rw [dictInsert_not_mem b (hdisj a (by simp))]
    have hdisj' : ∀ k ∈ rest.map Prod.fst, k ∉ (d ++ [(a, b)]).map Prod.fst := by
      intro k hk
      simp only [List.map_append, List.mem_append, not_or]
      refine ⟨hdisj k (by simp [hk]), ?_⟩
      simp only [List.map_cons, List.map_nil, List.mem_singleton]
      intro he
      exact hnd.1 (he ▸ hk)
    have := ih (d ++ [(a, b)]) hnd.2 hdisj'
    unfold CRM.dictUpdate at this
    rw [this, List.append_assoc]
    rfl

/-- **C6.**  HubSpot flattening returns the record's id under `'id'`
followed by every property entry (shown in general for records whose
properties avoid the key `'id'`, and on the spec's concrete example);
Salesforce flattening keeps exactly the entries whose key is not
`'attributes'` (shown by a membership characterisation and on the spec's
concrete example). -/
theorem C6_flatten (props : CRM.Row) (idv : CRM.Val) (r : CRM.Row)
    (hnd : (props.map Prod.fst).Nodup)
    (hid : "id" ∉ props.map Prod.fst) :
    CRM.flatten_record ⟨some idv, props⟩ = ("id", idv) :: props ∧
    (∀ k v, (k, v) ∈ CRM.sf_flatten r ↔ (k, v) ∈ r ∧ k ≠ "attributes") ∧
    CRM.flatten_record ⟨some (.s "1"), [("a", .s "x")]⟩ =
      [("id", .s "1"), ("a", .s "x")] ∧
    CRM.sf_flatten [("Id", .s "1"), ("Name", .s "n"),
        ("attributes", .dict [("type", .s "Asset")])] =
      [("Id", .s "1"), ("Name", .s "n")] := by
  refine ⟨?_, ?_, rfl, rfl⟩
  · have hdisj : ∀ k ∈ props.map Prod.fst,
        k ∉ ([("id", idv)] : CRM.Row).map Prod.fst := by
      intro k hk
      simp only [List.map_cons, List.map_nil, List.mem_singleton]
      intro he
      exact hid (he ▸ hk)
    have h := dictUpdate_disjoint [("id", idv)] hnd hdisj
    unfold CRM.flatten_record
    simpa using h
  · intro k v
    simp [CRM.sf_flatten, List.mem_filter]

/-- Witness for C6 at a concrete HubSpot record and Salesforce row. -/
theorem C6_flatten_witness :
    ((["a"] : List String).Nodup) ∧
    ("id" ∉ (["a"] : List String)) ∧
    (CRM.flatten_record ⟨some (.s "1"), [("a", CRM.Val.s "x")]⟩ =
        ("id", CRM.Val.s "1") :: [("a", CRM.Val.s "x")] ∧
      (∀ k v, (k, v) ∈ CRM.sf_flatten
            [("attributes", CRM.Val.s "m"), ("Id", CRM.Val.s "3")] ↔
          (k, v) ∈ [("attributes", CRM.Val.s "m"), ("Id", CRM.Val.s "3")] ∧
          k ≠ "attributes") ∧
      CRM.flatten_record ⟨some (.s "1"), [("a", .s "x")]⟩ =
        [("id", .s "1"), ("a", .s "x")] ∧
      CRM.sf_flatten [("Id", .s "1"), ("Name", .s "n"),
          ("attributes", .dict [("type", .s "Asset")])] =
        [("Id", .s "1"), ("Name", .s "n")]) :=
  ⟨by decide, by decide,
   C6_flatten [("a", CRM.Val.s "x")] (CRM.Val.s "1")
     [("attributes", CRM.Val.s "m"), ("Id", CRM.Val.s "3")]
     (by decide) (by decide)⟩

/-- **C10.**  The `'id'` entry of a flattened HubSpot record is the
properties' `id` value whenever the properties mapping has an `id` key
(the top-level id is silently overwritten, whether present or absent);
otherwise it is the record's top-level id, and the empty string when the
record has no top-level id at all. -/
theorem C10_flatten_id_overwrite (props : CRM.Row) (idv : CRM.Val)
    (hnd : (props.map Prod.fst).Nodup) :
    (∀ v, ("id", v) ∈ props →
      List.lookup "id" (CRM.flatten_record ⟨some idv, props⟩) = some v ∧
      List.lookup "id" (CRM.flatten_record ⟨none, props⟩) = some v) ∧
    ("id" ∉ props.map Prod.fst →
      List.lookup "id" (CRM.flatten_record ⟨some idv, props⟩) = some idv) ∧
    ("id" ∉ props.map Prod.fst →
      List.lookup "id" (CRM.flatten_record ⟨none, props⟩) = some (.s "")) := by
  refine ⟨?_, ?_, ?_⟩
  · intro v hv
    exact ⟨lookup_dictUpdate_mem _ hnd hv, lookup_dictUpdate_mem _ hnd hv⟩
  · intro hnm
    unfold CRM.flatten_record
    rw [lookup_dictUpdate_not_mem _ hnm]
    rfl
  · intro hnm
    unfold CRM.flatten_record
    rw [lookup_dictUpdate_not_mem _ hnm]
    rfl

/-- Witness for C10 at a concrete record whose properties carry an `id`
entry. -/
theorem C10_flatten_id_overwrite_witness :
    ((["id", "b"] : List String).Nodup) ∧
    ((∀ v, ("id", v) ∈ ([("id", CRM.Val.s "7"), ("b", CRM.Val.s "y")] : CRM.Row) →
      List.lookup "id" (CRM.flatten_record
          ⟨some (CRM.Val.s "top"), [("id", CRM.Val.s "7"), ("b", CRM.Val.s "y")]⟩) =
        some v ∧
      List.lookup "id" (CRM.flatten_record
          ⟨none, [("id", CRM.Val.s "7"), ("b", CRM.Val.s "y")]⟩) = some v) ∧
    ("id" ∉ ([("id", CRM.Val.s "7"), ("b", CRM.Val.s "y")] : CRM.Row).map Prod.fst →
      List.lookup "id" (CRM.flatten_record
          ⟨some (CRM.Val.s "top"), [("id", CRM.Val.s "7"), ("b", CRM.Val.s "y")]⟩) =
        some (CRM.Val.s "top")) ∧
    ("id" ∉ ([("id", CRM.Val.s "7"), ("b", CRM.Val.s "y")] : CRM.Row).map Prod.fst →
      List.lookup "id" (CRM.flatten_record
          ⟨none, [("id", CRM.Val.s "7"), ("b", CRM.Val.s "y")]⟩) = some (.s ""))) :=
  ⟨by decide,
   C10_flatten_id_overwrite [("id", CRM.Val.s "7"), ("b", CRM.Val.s "y")]
     (CRM.Val.s "top") (by decide)⟩

/-- First-occurrence de-duplication preserves membership. -/
theorem mem_dedupKeys (l : List String) (x : String) :
    x ∈ CRM.dedupKeys l ↔ x ∈ l := by
  induction l with
  | nil => simp [CRM.dedupKeys]
  | cons k ks ih =>
    simp only [CRM.dedupKeys, List.mem_cons, List.mem_filter, ih,
      decide_eq_true_eq]
    constructor
    · rintro (rfl | ⟨hm, _⟩)
      · exact Or.inl rfl
      · exact Or.inr hm
    · rintro (rfl | hm)
      · exact Or.inl rfl
      · by_cases hx : x = k
        · exact Or.inl hx
        · exact Or.inr ⟨hm, hx⟩

/-- First-occurrence de-duplication yields a duplicate-free list. -/
theorem nodup_dedupKeys (l : List String) : (CRM.dedupKeys l).Nodup := by
  induction l with
  | nil => simp [CRM.dedupKeys]
  | cons k ks ih =>
    simp only [CRM.dedupKeys, List.nodup_cons]
    refine ⟨?_, ih.filter _⟩
    simp [List.mem_filter]

/-- First-occurrence de-duplication keeps the original (first-appearance)
order: the result is a sublist of the input. -/
theorem dedupKeys_sublist (l : List String) : (CRM.dedupKeys l).Sublist l := by
  induction l with
  | nil => simp [CRM.dedupKeys]
  | cons k ks ih =>
    simp only [CRM.dedupKeys]
    exact List.Sublist.cons₂ k (List.Sublist.trans (List.filter_sublist _) ih)

/-- Sorting preserves membership. -/
theorem mem_sortStrings (l : List String) (x : String) :
    x ∈ CRM.sortStrings l ↔ x ∈ l :=
  (List.perm_insertionSort (· ≤ ·) l).mem_iff

/-- Counterexample to **C7** as stated: the web exporter orders the
header purely by first appearance, so a row listing another key before
`id` produces a header that does not start with `id`. -/
theorem C7_counterexample :
    (CRM.make_excel [[("a", CRM.Val.s "x"), ("id", CRM.Val.s "1")]]).header =
      ["a", "id"] ∧
    ("a" : String) ≠ "id" :=
  ⟨rfl, by decide⟩

/-- **C7 (amended).**  For every list of flat rows the exported header is
the union of all keys with each field exactly once: the CLI exporter
(`save_to_excel`) puts `id` first and the remaining keys in lexicographic
order, while the web exporter (`make_excel`) uses pure first-appearance
(insertion) order — so its header starts with `id` only when the rows
list `id` first, as flattened records do.  Each data cell holds the row's
value for its column, the empty string when the row lacks the field, and
the stringified mapping when the value is a nested mapping. -/
theorem C7_export_header (flat rows : List CRM.Row) (row : CRM.Row)
    (field : String) (records : List CRM.HSRecord) :
    ((CRM.hs_all_fields flat).head? = some "id") ∧
    ((CRM.hs_all_fields flat).Nodup) ∧
    (List.Sorted (· ≤ ·) (CRM.hs_all_fields flat).tail) ∧
    (∀ k, k ∈ CRM.hs_all_fields flat ↔
        k = "id" ∨ k ∈ (flat.map CRM.rowKeys).flatten) ∧
    ((CRM.make_excel_fields rows).Nodup) ∧
    (∀ k, k ∈ CRM.make_excel_fields rows ↔ k ∈ (rows.map CRM.rowKeys).flatten) ∧
    ((CRM.make_excel_fields rows).Sublist ((rows.map CRM.rowKeys).flatten)) ∧
    (List.lookup field row = none → CRM.cellValue row field = .s "") ∧
    (∀ s, List.lookup field row = some (.s s) → CRM.cellValue row field = .s s) ∧
    (∀ d, List.lookup field row = some (.dict d) →
      CRM.cellValue row field = .s (CRM.pyStr (.dict d))) ∧
    (rows ≠ [] → CRM.make_excel rows =
      ⟨CRM.make_excel_fields rows,
       rows.map (fun r => (CRM.make_excel_fields rows).map (CRM.cellValue r))⟩) ∧
    (records ≠ [] → CRM.hs_save_to_excel records =
      some ⟨CRM.hs_all_fields (records.map CRM.flatten_record),
        (records.map CRM.flatten_record).map
          (fun r => (CRM.hs_all_fields (records.map CRM.flatten_record)).map
            (CRM.cellValue r))⟩) := by
  refine ⟨rfl, ?_, ?_, ?_, nodup_dedupKeys _, ?_, dedupKeys_sublist _,
    ?_, ?_, ?_, ?_, ?_⟩
  · unfold CRM.hs_all_fields
    rw [List.nodup_cons]
    refine ⟨?_, ?_⟩
    · intro hm
      rw [mem_sortStrings, mem_dedupKeys, List.mem_filter] at hm
      simpa using hm.2
    · exact ((List.perm_insertionSort (· ≤ ·) _).nodup_iff).mpr
        (nodup_dedupKeys _)
  · unfold CRM.hs_all_fields
    exact List.sorted_insertionSort (· ≤ ·) _
  · intro k
    simp only [CRM.hs_all_fields, List.mem_cons, mem_sortStrings,
      mem_dedupKeys, List.mem_filter, decide_eq_true_eq]
    constructor
    · rintro (rfl | ⟨hm, _⟩)
      · exact Or.inl rfl
      · exact Or.inr hm
    · rintro (rfl | hm)
      · exact Or.inl rfl
      · by_cases hk : k = "id"
        · exact Or.inl hk
        · exact Or.inr ⟨hm, hk⟩
  · intro k
    exact mem_dedupKeys _ k
  · intro hnone
    unfold CRM.cellValue
    rw [hnone]
  · intro s hs
    unfold CRM.cellValue
    rw [hs]
  · intro d hd
    unfold CRM.cellValue
    rw [hd]
  · intro h
    have hne : rows.isEmpty = false := by
      cases rows with
      | nil => exact absurd rfl h
      | cons a l => rfl
    simp [CRM.make_excel, hne]
  · intro h
    have hne : records.isEmpty = false := by
      cases records with
      | nil => exact absurd rfl h
      | cons a l => rfl
    simp [CRM.hs_save_to_excel, hne]

/-- Witness for amended C7 at concrete rows (the CLI header of a
one-row export, and the full web sheet of a one-row export). -/
theorem C7_export_header_witness :
    (CRM.hs_all_fields [[("b", CRM.Val.s "y")]]).head? = some "id" ∧
    ([[("id", CRM.Val.s "1"), ("a", CRM.Val.s "x")]] : List CRM.Row) ≠ [] ∧
    CRM.make_excel [[("id", CRM.Val.s "1"), ("a", CRM.Val.s "x")]] =
      ⟨CRM.make_excel_fields [[("id", CRM.Val.s "1"), ("a", CRM.Val.s "x")]],
       [[("id", CRM.Val.s "1"), ("a", CRM.Val.s "x")]].map
         (fun r => (CRM.make_excel_fields
            [[("id", CRM.Val.s "1"), ("a", CRM.Val.s "x")]]).map
            (CRM.cellValue r))⟩ := by
  refine ⟨?_, List.cons_ne_nil _ _, ?_⟩
  · exact (C7_export_header [[("b", CRM.Val.s "y")]] [] [] "f" []).1
  · exact ((C7_export_header [[("b", CRM.Val.s "y")]]
      [[("id", CRM.Val.s "1"), ("a", CRM.Val.s "x")]] [] "f"
      []).2.2.2.2.2.2.2.2.2.2).1 (List.cons_ne_nil _ _)

/-- **C8.**  In the Salesforce CLI query flow: a successful first query
returns directly; an HTTP 401 with auto-refresh enabled re-fetches the
secret, forces a fresh OAuth token resolution, and retries the same query
exactly once, with a failure of the retry — or of the secret re-fetch or
token resolution — propagating as fatal; any other HTTP status, a 401
with auto-refresh disabled, and any non-HTTPError all propagate the
original error with no retry. -/
theorem C8_sf_401_retry (autoRefresh : Bool) (env : CRM.RetryEnv) :
    (∀ r, env.firstResult = .ok r →
      CRM.run_query_with_retry autoRefresh env = (.ok r, ⟨false, false, 0⟩)) ∧
    (∀ creds tok, env.firstResult = .error (.http 401) → autoRefresh = true →
      env.refetchedCreds = .ok creds →
      (CRM.get_salesforce_access_token creds true env.net).1 = .ok tok →
      CRM.truthy (List.lookup "instance_url" creds) = true →
      CRM.run_query_with_retry autoRefresh env =
        (env.retryResult.mapError .query, ⟨true, true, 1⟩)) ∧
    (∀ msg, env.firstResult = .error (.http 401) → autoRefresh = true →
      env.refetchedCreds = .error msg →
      CRM.run_query_with_retry autoRefresh env =
        (.error (.refresh msg), ⟨true, false, 0⟩)) ∧
    (∀ creds msg, env.firstResult = .error (.http 401) → autoRefresh = true →
      env.refetchedCreds = .ok creds →
      (CRM.get_salesforce_access_token creds true env.net).1 = .error msg →
      CRM.run_query_with_retry autoRefresh env =
        (.error (.refresh msg), ⟨true, true, 0⟩)) ∧
    (∀ s, s ≠ 401 → env.firstResult = .error (.http s) →
      CRM.run_query_with_retry autoRefresh env =
        (.error (.query (.http s)), ⟨false, false, 0⟩)) ∧
    (∀ s, autoRefresh = false → env.firstResult = .error (.http s) →
      CRM.run_query_with_retry autoRefresh env =
        (.error (.query (.http s)), ⟨false, false, 0⟩)) ∧
    (∀ msg, env.firstResult = .error (.other msg) →
      CRM.run_query_with_retry autoRefresh env =
        (.error (.query (.other msg)), ⟨false, false, 0⟩)) := by
  refine ⟨?_, ?_, ?_, ?_, ?_, ?_, ?_⟩
  · intro r h
    simp [CRM.run_query_with_retry, h]
  · intro creds tok h1 h2 h3 h4 h5
    simp [CRM.run_query_with_retry, h1, h2, h3, h4, h5]
  · intro msg h1 h2 h3
    simp [CRM.run_query_with_retry, h1, h2, h3]
  · intro creds msg h1 h2 h3 h4
    simp [CRM.run_query_with_retry, h1, h2, h3, h4]
  · intro s hs h1
    have hb : (s == 401) = false := beq_eq_false_iff_ne.mpr hs
    simp [CRM.run_query_with_retry, h1, hb]
  · intro s h2 h1
    simp [CRM.run_query_with_retry, h1, h2]
  · intro msg h1
    simp [CRM.run_query_with_retry, h1]

/-- Witness for C8 at a concrete 401-then-recover environment. -/
theorem C8_sf_401_retry_witness :
    CRM.run_query_with_retry true
      ⟨.error (.http 401),
       .ok [("instance_url", "https://x"), ("refresh_token", "rt")],
       ⟨some "T", none, none⟩, .ok []⟩ =
      (.ok [], ⟨true, true, 1⟩) :=
  ((C8_sf_401_retry true
      ⟨.error (.http 401),
       .ok [("instance_url", "https://x"), ("refresh_token", "rt")],
       ⟨some "T", none, none⟩, .ok []⟩).2.1)
    [("instance_url", "https://x"), ("refresh_token", "rt")] "T"
    rfl rfl rfl rfl rfl

/-- Counterexample to **C9** as stated: the CLI HubSpot `_get` call site
is an outbound request that passes no timeout at all. -/
theorem C9_counterexample :
    (⟨.hubspotCli, "_get", none⟩ : CRM.RequestSite) ∈ CRM.requestSites ∧
    (⟨.hubspotCli, "_get", none⟩ : CRM.RequestSite).timeout ≠ some 10 := by
  exact ⟨by decide, by decide⟩

/-- **C9 (amended).**  A request site carries the fixed 10-second timeout
exactly when it belongs to the web UI: every web-UI call passes
`timeout=REQUEST_TIMEOUT` (10 s), and neither CLI tool passes any
timeout on any of its outbound calls. -/
theorem C9_timeouts :
    CRM.requestSites.all
      (fun s => (s.timeout == some 10) == (s.variant == CRM.Variant.webUi)) =
      true := by
  decide
